import Mathlib

/-!
Verification of the CEL C++ evaluation core against its specification.

The definitions below are a shallow embedding of the relevant portions of
the source tree: `common/any.cc` (`ParseTypeUrl`),
`eval/eval/evaluator_core.h` (`ExecutionFrame::IncrementIterations`),
`base/values/int_value.cc` (`IntValue::Equals`, `IntValue::ConvertToType`),
`runtime/standard/container_membership_functions.cc` (`intKeyInSet`,
`uintKeyInSet`, `doubleKeyInSet`), and the comprehension evaluation loop.
Machine integers are modelled as `Int`/`Nat` with explicit range bounds where
they matter; fallible C++ paths returning `absl::Status` are modelled with
`Except Status`; `absl::StatusOr<Value>` results are `Except Status Value`.
-/

namespace CelSpec

/-- absl status codes used by the modelled code paths. -/
inductive StatusCode where
  | ok
  | internal
  | notFound
  | outOfRange
  | invalidArgument
  | unknownCode
  deriving DecidableEq, Repr

/-- An `absl::Status`: the fatal, host-level error channel. -/
structure Status where
  code : StatusCode
  message : String
  deriving DecidableEq, Repr

/-- The CEL runtime value universe (the variants needed by the claims).
`double` is modelled as an exact rational: the relevant code paths
(`internal::Number`) compare numerics by exact mathematical value, and the
spec states heterogeneous equality holds iff the operands represent the same
mathematical value. `string` and `bytes` carry their UTF-8 code units /
octets as lists of bytes. `error` carries an `absl::Status` payload as the
CEL-level error value; `unknown` carries an opaque identifier for the
unknown set. -/
inductive Value where
  | null
  | bool (b : Bool)
  | int (i : Int)
  | uint (u : Nat)
  | double (d : Rat)
  | string (bytes : List Nat)
  | bytes (bs : List Nat)
  | list (xs : List Value)
  | error (e : Status)
  | unknown (u : Nat)

/-- Embeds `Value::IsTrue`: true iff the value is `Bool(true)`. -/
def Value.IsTrue : Value → Bool
  | .bool b => b
  | _ => false

/-- int64 minimum. -/
def int64Min : Int := -(2 ^ 63)

/-- int64 maximum. -/
def int64Max : Int := 2 ^ 63 - 1

/-- uint64 maximum. -/
def uint64Max : Nat := 2 ^ 64 - 1

/-- Embeds `absl::string_view::find_last_of(c)`: index of the last occurrence of
`c`, `none` standing for `npos`. -/
def findLastOf (c : Char) : List Char → Option Nat
  | [] => none
  | x :: xs =>
      match findLastOf c xs with
      | some i => some (i + 1)
      | none => if x = c then some 0 else none

/-- Embeds `ParseTypeUrl` from `common/any.cc`: finds the last `'/'`; fails when
there is none or it is the final character; otherwise yields the prefix (up
to and including the last `'/'`) and the type name (everything after it).
The two nullable out-parameters are modelled by returning both parts; a
`false` return (no out-parameter written) is `none`. -/
def ParseTypeUrl (type_url : List Char) : Option (List Char × List Char) :=
  match findLastOf '/' type_url with
  | none => none
  | some pos =>
      if pos + 1 = type_url.length then none
      else some (type_url.take (pos + 1), type_url.drop (pos + 1))

/-- Embeds `ExecutionFrame::IncrementIterations` from `eval/eval/evaluator_core.h`:
a zero budget disables the check; otherwise the counter is incremented and
reaching the budget is the fatal iteration-limit error. -/
def incrementIterations (max_iterations iterations : Nat) :
    Except Status Nat :=
  if max_iterations = 0 then .ok iterations
  else
    let iterations := iterations + 1
    if iterations ≥ max_iterations then
      .error ⟨.internal, "Iteration budget exceeded"⟩
    else .ok iterations

/-- Modelled from the spec: `internal::Number` (`internal/number.h` is not
among the sources here, only its callers are). The spec states that
heterogeneous numeric equality holds iff the operands "represent the same
mathematical value", so a `Number` is the exact rational value an `Int`,
`Uint` or `Double` operand represents, compared exactly. -/
abbrev Number := Rat

/-- Embeds `internal::Number::FromInt64`. -/
def Number.FromInt64 (i : Int) : Number := (i : Rat)

/-- Embeds `internal::Number::FromUint64`. -/
def Number.FromUint64 (u : Nat) : Number := (u : Rat)

/-- Embeds `internal::Number::FromDouble` (doubles are modelled as the exact
rational they denote). -/
def Number.FromDouble (d : Rat) : Number := d

/-- Modelled from the spec: a `Number` converts losslessly to `Uint` iff its
mathematical value is an integer within the uint64 range ("Integer↔Uint
conversion fails on sign loss"). -/
def Number.LosslessConvertibleToUint (n : Number) : Bool :=
  decide (n.den = 1 ∧ 0 ≤ n.num ∧ n.num ≤ (uint64Max : Int))

/-- Modelled from the spec: a `Number` converts losslessly to `Int` iff its
mathematical value is an integer within the int64 range. -/
def Number.LosslessConvertibleToInt (n : Number) : Bool :=
  decide (n.den = 1 ∧ int64Min ≤ n.num ∧ n.num ≤ int64Max)

/-- Embeds `internal::Number::AsUint` (only used under the lossless guard). -/
def Number.AsUint (n : Number) : Nat := n.num.toNat

/-- Embeds `internal::Number::AsInt` (only used under the lossless guard). -/
def Number.AsInt (n : Number) : Int := n.num

/-- Embeds `IntValue::Equals` from `base/values/int_value.cc`: dispatch on the
other operand's kind; numeric kinds compare via `internal::Number`; any
other kind compares `false`. The result is always a Bool value, never an
error. -/
def IntValue.Equals (value : Int) (other : Value) : Value :=
  match other with
  | .int o => .bool (decide (Number.FromInt64 value = Number.FromInt64 o))
  | .uint o => .bool (decide (Number.FromInt64 value = Number.FromUint64 o))
  | .double o => .bool (decide (Number.FromInt64 value = Number.FromDouble o))
  | _ => .bool false

/-- Modelled from the spec: `UintValue::Equals` (uint_value.cc is not among
the sources) mirrors `IntValue::Equals` with `Number::FromUint64` on the
left. -/
def UintValue.Equals (value : Nat) (other : Value) : Value :=
  match other with
  | .int o => .bool (decide (Number.FromUint64 value = Number.FromInt64 o))
  | .uint o => .bool (decide (Number.FromUint64 value = Number.FromUint64 o))
  | .double o => .bool (decide (Number.FromUint64 value = Number.FromDouble o))
  | _ => .bool false

/-- Modelled from the spec: `DoubleValue::Equals` (double_value.cc is not
among the sources) mirrors `IntValue::Equals` with `Number::FromDouble` on
the left. -/
def DoubleValue.Equals (value : Rat) (other : Value) : Value :=
  match other with
  | .int o => .bool (decide (Number.FromDouble value = Number.FromInt64 o))
  | .uint o => .bool (decide (Number.FromDouble value = Number.FromUint64 o))
  | .double o => .bool (decide (Number.FromDouble value = Number.FromDouble o))
  | _ => .bool false

/-- The `TypeKind::kUint` arm of `IntValue::ConvertToType` from
`base/values/int_value.cc`: when the int is not losslessly convertible to
uint, the conversion yields an Error value carrying
`absl::OutOfRangeError("unsigned integer overflow")`; otherwise the uint
with the same value. -/
def IntValue.ConvertToTypeUint (value : Int) : Value :=
  let number := Number.FromInt64 value
  if number.LosslessConvertibleToUint then .uint number.AsUint
  else .error ⟨.outOfRange, "unsigned integer overflow"⟩

/-! ### Map membership (`runtime/standard/container_membership_functions.cc`) -/

/-- Scalar map-key equality: same kind, same payload. -/
def Value.keyEq : Value → Value → Bool
  | .bool a, .bool b => decide (a = b)
  | .int a, .int b => decide (a = b)
  | .uint a, .uint b => decide (a = b)
  | .string a, .string b => decide (a = b)
  | _, _ => false

/-- Whether a key of exactly this kind and payload is present. -/
def hasKey (keys : List Value) (k : Value) : Bool :=
  keys.any (fun x => Value.keyEq x k)

/-- Modelled from the spec: `MapValue::Has` for the common map
implementations (not among the sources) is exact same-kind key lookup; a
map is modelled by its key list (insertion order). -/
def mapHas (keys : List Value) (k : Value) : Except Status Value :=
  .ok (.bool (hasKey keys k))

/-- Embeds `result.ok() && result->IsTrue()` on an `absl::StatusOr<Value>`. -/
def isOkAndTrue : Except Status Value → Bool
  | .ok v => v.IsTrue
  | .error _ => false

/-- Embeds `intKeyInSet` from
`runtime/standard/container_membership_functions.cc`
(`RegisterMapMembershipFunctions`), parametrised over the map value's `Has`
operation: look the int key up directly; under heterogeneous equality, fall
back to the uint representation when the key converts losslessly, and
return `Bool(false)` when no representation is present; without
heterogeneous equality, surface the lookup result (a failed status becomes
an Error value). -/
def intKeyInSet (enable_heterogeneous_equality : Bool)
    (has : Value → Except Status Value) (key : Int) : Except Status Value :=
  let result := has (.int key)
  if enable_heterogeneous_equality then
    if isOkAndTrue result then result
    else
      let number := Number.FromInt64 key
      if number.LosslessConvertibleToUint then
        let result2 := has (.uint number.AsUint)
        if isOkAndTrue result2 then result2
        else .ok (.bool false)
      else .ok (.bool false)
  else
    match result with
    | .error st => .ok (.error st)
    | .ok v => .ok v

/-- Embeds `uintKeyInSet` from the same registration: symmetric to `intKeyInSet`,
falling back from the uint key to its int representation. -/
def uintKeyInSet (enable_heterogeneous_equality : Bool)
    (has : Value → Except Status Value) (key : Nat) : Except Status Value :=
  let result := has (.uint key)
  if enable_heterogeneous_equality then
    if isOkAndTrue result then result
    else
      let number := Number.FromUint64 key
      if number.LosslessConvertibleToInt then
        let result2 := has (.int number.AsInt)
        if isOkAndTrue result2 then result2
        else .ok (.bool false)
      else .ok (.bool false)
  else
    match result with
    | .error st => .ok (.error st)
    | .ok v => .ok v

/-- Embeds `doubleKeyInSet` from the same registration (registered only when
heterogeneous equality is enabled): try the int representation when the
double converts losslessly to int, then the uint representation when it
converts losslessly to uint; otherwise `Bool(false)`. -/
def doubleKeyInSet (has : Value → Except Status Value) (key : Rat) :
    Except Status Value :=
  let number := Number.FromDouble key
  if number.LosslessConvertibleToInt
      && isOkAndTrue (has (.int number.AsInt)) then
    has (.int number.AsInt)
  else if number.LosslessConvertibleToUint
      && isOkAndTrue (has (.uint number.AsUint)) then
    has (.uint number.AsUint)
  else .ok (.bool false)

/-! ### String and bytes sizes -/

/-- A UTF-8 continuation byte has top bits `10`. -/
def isContinuationByte (b : Nat) : Bool := decide (128 ≤ b ∧ b < 192)

/-- Modelled from the spec: `StringValue::size()` "returns Unicode
code-point count, not byte count" (the string implementation is not among
the sources; its behavior is pinned by `StringSizeTest`). Counting the
non-continuation bytes of well-formed UTF-8 counts its code points. -/
def StringValue.size (bytes : List Nat) : Nat :=
  (bytes.filter (fun b => !isContinuationByte b)).length

/-- Embeds `BytesValue::size()`: the octet count (pinned by `BytesSizeTest`). -/
def BytesValue.size (bs : List Nat) : Nat := bs.length

/-- UTF-8 encoding of one Unicode scalar value (spec-side definition used
to state the code-point-count property). -/
def utf8Encode (c : Nat) : List Nat :=
  if c < 128 then [c]
  else if c < 2048 then [192 + c / 64, 128 + c % 64]
  else if c < 65536 then [224 + c / 4096, 128 + c / 64 % 64, 128 + c % 64]
  else [240 + c / 262144, 128 + c / 4096 % 64, 128 + c / 64 % 64,
        128 + c % 64]

/-- UTF-8 encoding of a sequence of Unicode scalar values. -/
def utf8EncodeAll (cs : List Nat) : List Nat := cs.flatMap utf8Encode

/-! ### Records (`extensions/protobuf/value.cc`, pinned by
`ProtoValueWrapTest`) -/

/-- A declared field of a message-backed record: its name, field number,
current value, and presence bit. Modelled from the spec (§4.5) and the
`ProtoValueWrapTest` contract; the message implementation is not among the
sources. -/
structure RecordField where
  name : String
  number : Nat
  value : Value
  present : Bool

/-- Embeds `StructValue::GetFieldByName`: a declared field yields its value; an
undeclared name yields a well-formed result holding a NotFound Error value
whose message names `no_such_field`. -/
def GetFieldByName (fields : List RecordField) (name : String) :
    Except Status Value :=
  match fields.find? (fun f => f.name == name) with
  | some f => .ok f.value
  | none => .ok (.error ⟨.notFound, "no_such_field"⟩)

/-- Embeds `StructValue::GetFieldByNumber`: as by name, keyed by field number. -/
def GetFieldByNumber (fields : List RecordField) (number : Nat) :
    Except Status Value :=
  match fields.find? (fun f => f.number == number) with
  | some f => .ok f.value
  | none => .ok (.error ⟨.notFound, "no_such_field"⟩)

/-- Embeds `StructValue::HasFieldByName`: a declared field yields its presence
bit; an undeclared name fails with a host-level NotFound status ("Has
returns a status directly instead of a CEL error as in Get"). -/
def HasFieldByName (fields : List RecordField) (name : String) :
    Except Status Value :=
  match fields.find? (fun f => f.name == name) with
  | some f => .ok (.bool f.present)
  | none => .error ⟨.notFound, "no_such_field"⟩

/-- Embeds `StructValue::HasFieldByNumber`: as by name, keyed by field number. -/
def HasFieldByNumber (fields : List RecordField) (number : Nat) :
    Except Status Value :=
  match fields.find? (fun f => f.number == number) with
  | some f => .ok (.bool f.present)
  | none => .error ⟨.notFound, "no_such_field"⟩

/-! ### The comprehension step

`ComprehensionDirectStep::Evaluate` (eval/eval/comprehension_step.cc) is
not among the sources; the model below follows the spec's §4.9 state
machine, with the iteration budget charged through the source's
`ExecutionFrame::IncrementIterations` at the top of every iteration, as
pinned by `DirectComprehensionTest` (`Shortcircuit`, `IterationLimit`,
`Exhaustive`) and `ListKeysStepTest`
(`ErrorPassedThrough`/`UnknownSetPassedThrough`). The loop condition is
abstracted as the sequence of values it evaluates to, indexed by iteration
ordinal; the loop step as a function of the ordinal and the accumulator. -/

/-- Mutable loop state: the frame's iteration counter, the accumulator
slot, and instrumentation counting sub-expression evaluations. -/
structure LoopState where
  iterations : Nat
  accu : Value
  condEvals : Nat
  stepEvals : Nat

/-- Outcome of a completed (non-fatal) comprehension evaluation. -/
structure CompOutcome where
  result : Value
  iterations : Nat
  accuInitEvals : Nat
  condEvals : Nat
  stepEvals : Nat

/-- One pass over the range elements. Per iteration: charge the iteration
budget (fatal on exhaustion); evaluate the loop condition; an error or
unknown condition ends the comprehension with that value; a non-Bool
condition ends it with a no-matching-overload error; `Bool(false)` exits
the loop when short-circuiting; otherwise the loop step replaces the
accumulator. Returns the final state and, when the comprehension ended
early, its result value. -/
def runLoop (max_iterations : Nat) (shortcircuiting : Bool)
    (cond : Nat → Value) (step : Nat → Value → Value) :
    List Value → Nat → LoopState → Except Status (LoopState × Option Value)
  | [], _, st => .ok (st, none)
  | _ :: rest, idx, st => do
      let iters ← incrementIterations max_iterations st.iterations
      let st := { st with iterations := iters, condEvals := st.condEvals + 1 }
      match cond idx with
      | .error e => .ok (st, some (.error e))
      | .unknown u => .ok (st, some (.unknown u))
      | .bool b =>
          if shortcircuiting && !b then .ok (st, none)
          else
            runLoop max_iterations shortcircuiting cond step rest (idx + 1)
              { st with accu := step idx st.accu,
                        stepEvals := st.stepEvals + 1 }
      | _ => .ok (st, some (.error
          ⟨.unknownCode, "no matching overload for loop condition"⟩))

/-- The direct comprehension step: an error or unknown range becomes the
result immediately (no accumulator initialization, no iterations); a list
range initializes the accumulator and runs the loop, then evaluates the
result expression over the final accumulator; a non-container range yields
a no-matching-overload error value after the accumulator is initialized. -/
def evalComprehension (max_iterations : Nat) (shortcircuiting : Bool)
    (rangeVal accuInit : Value) (cond : Nat → Value)
    (step : Nat → Value → Value) (resultFn : Value → Value) :
    Except Status CompOutcome :=
  match rangeVal with
  | .error e => .ok ⟨.error e, 0, 0, 0, 0⟩
  | .unknown u => .ok ⟨.unknown u, 0, 0, 0, 0⟩
  | .list xs => do
      let (st, early) ← runLoop max_iterations shortcircuiting cond step xs 0
        ⟨0, accuInit, 0, 0⟩
      match early with
      | some v => .ok ⟨v, st.iterations, 1, st.condEvals, st.stepEvals⟩
      | none =>
          .ok ⟨resultFn st.accu, st.iterations, 1, st.condEvals, st.stepEvals⟩
  | _ => .ok ⟨.error ⟨.unknownCode, "no matching overload for <iter_range>"⟩,
      0, 1, 0, 0⟩

/-! ### Helper lemmas -/

/-- Inversion for a successful `Except` bind. -/
theorem except_bind_ok {α β : Type} {e : Except Status α}
    {k : α → Except Status β} {b : β} (h : (e >>= k) = .ok b) :
    ∃ a, e = .ok a ∧ k a = .ok b := by
  cases e with
  | error st => simp [Bind.bind, Except.bind] at h
  | ok a => exact ⟨a, rfl, by simpa [Bind.bind, Except.bind] using h⟩

/-- With a zero iteration budget the loop can never fail fatally. -/
theorem runLoop_zero_ok (sc : Bool) (cond : Nat → Value)
    (step : Nat → Value → Value) :
    ∀ (xs : List Value) (idx : Nat) (st : LoopState),
      ∃ r, runLoop 0 sc cond step xs idx st = .ok r := by
  intro xs
  induction xs with
  | nil => intro idx st; exact ⟨(st, none), rfl⟩
  | cons x rest ih =>
      intro idx st
      simp only [runLoop, incrementIterations, if_pos rfl, Bind.bind,
        Except.bind]
      cases cond idx with
      | bool b =>
          by_cases hb : (sc && !b) = true
          · simp only [hb, if_true]; exact ⟨_, rfl⟩
          · simp only [hb, if_false]; exact ih _ _
      | null => exact ⟨_, rfl⟩
      | int i => exact ⟨_, rfl⟩
      | uint u => exact ⟨_, rfl⟩
      | double d => exact ⟨_, rfl⟩
      | string s => exact ⟨_, rfl⟩
      | bytes s => exact ⟨_, rfl⟩
      | list l => exact ⟨_, rfl⟩
      | error e => exact ⟨_, rfl⟩
      | unknown u => exact ⟨_, rfl⟩

/-! ### Claims -/

/-- C4: a comprehension whose range expression evaluates to an Error or
Unknown value yields that same value as the overall result, skips the
accumulator initialization and the loop entirely (no accumulator-init, no
condition and no step evaluations, no iterations charged), and completes
without a fatal host-level error. -/
theorem c4_range_error_unknown_passthrough (N : Nat) (sc : Bool)
    (accuInit : Value) (cond : Nat → Value) (step : Nat → Value → Value)
    (resultFn : Value → Value) (e : Status) (u : Nat) :
    evalComprehension N sc (.error e) accuInit cond step resultFn =
      .ok ⟨.error e, 0, 0, 0, 0⟩ ∧
    evalComprehension N sc (.unknown u) accuInit cond step resultFn =
      .ok ⟨.unknown u, 0, 0, 0, 0⟩ :=
  ⟨rfl, rfl⟩

/-- C8: a zero `comprehension_max_iterations` disables the iteration
limit: `IncrementIterations` never fails, and a comprehension evaluation
never fails with the iteration-limit error, whatever the range size. -/
theorem c8_zero_budget_disables_limit :
    (∀ iterations, incrementIterations 0 iterations = .ok iterations) ∧
    (∀ (sc : Bool) (rangeVal accuInit : Value) (cond : Nat → Value)
      (step : Nat → Value → Value) (resultFn : Value → Value),
      ∃ out, evalComprehension 0 sc rangeVal accuInit cond step resultFn =
        .ok out) := by
  constructor
  · intro iterations; rfl
  · intro sc rangeVal accuInit cond step resultFn
    cases rangeVal with
    | list xs =>
        obtain ⟨⟨st, early⟩, hr⟩ := runLoop_zero_ok sc cond step xs 0
          ⟨0, accuInit, 0, 0⟩
        cases early with
        | some v =>
            refine ⟨⟨v, st.iterations, 1, st.condEvals, st.stepEvals⟩, ?_⟩
            simp only [evalComprehension, Bind.bind, Except.bind, hr]
        | none =>
            refine ⟨⟨resultFn st.accu, st.iterations, 1, st.condEvals,
              st.stepEvals⟩, ?_⟩
            simp only [evalComprehension, Bind.bind, Except.bind, hr]
    | null => exact ⟨_, rfl⟩
    | bool b => exact ⟨_, rfl⟩
    | int i => exact ⟨_, rfl⟩
    | uint u => exact ⟨_, rfl⟩
    | double d => exact ⟨_, rfl⟩
    | string s => exact ⟨_, rfl⟩
    | bytes s => exact ⟨_, rfl⟩
    | error e => exact ⟨_, rfl⟩
    | unknown u => exact ⟨_, rfl⟩

/-- C2: with heterogeneous equality, an Int, a Uint and a Double denoting
the same mathematical value compare equal pairwise (`i == u`, `u == d`,
`i == d`), and numerics of different kinds denoting different values
compare `false` — a Bool result, never an error. -/
theorem c2_heterogeneous_number_equality (i : Int) (u : Nat) (d : Rat) :
    ((i : Rat) = (u : Rat) → (u : Rat) = d →
      IntValue.Equals i (.uint u) = .bool true ∧
      UintValue.Equals u (.double d) = .bool true ∧
      IntValue.Equals i (.double d) = .bool true) ∧
    (((i : Rat) ≠ (u : Rat) → IntValue.Equals i (.uint u) = .bool false) ∧
     ((u : Rat) ≠ d → UintValue.Equals u (.double d) = .bool false) ∧
     ((i : Rat) ≠ d → IntValue.Equals i (.double d) = .bool false)) := by
  constructor
  · intro h1 h2
    refine ⟨?_, ?_, ?_⟩ <;>
      simp [IntValue.Equals, UintValue.Equals, Number.FromInt64,
        Number.FromUint64, Number.FromDouble, h1, h2, h1.trans h2]
  · refine ⟨?_, ?_, ?_⟩ <;> intro hne <;>
      simp [IntValue.Equals, UintValue.Equals, Number.FromInt64,
        Number.FromUint64, Number.FromDouble, hne]

/-- Witness for C2 at `i = 7`, `u = 7`, `d = 7` (equal) and `u = 8`
(different). -/
theorem c2_heterogeneous_number_equality_witness :
    (IntValue.Equals 7 (.uint 7) = .bool true ∧
     UintValue.Equals 7 (.double 7) = .bool true ∧
     IntValue.Equals 7 (.double 7) = .bool true) ∧
    IntValue.Equals 7 (.uint 8) = .bool false :=
  ⟨(c2_heterogeneous_number_equality 7 7 7).1 (by norm_num) (by norm_num),
   (c2_heterogeneous_number_equality 7 8 8).2.1 (by norm_num)⟩

/-- C7: converting an Int to Uint fails with the
"unsigned integer overflow" Error value exactly when the value is
negative (sign loss); a non-negative int64 converts to the Uint denoting
the same mathematical value. -/
theorem c7_int_to_uint_conversion (i : Int) (hlo : int64Min ≤ i)
    (hhi : i ≤ int64Max) :
    (i < 0 → IntValue.ConvertToTypeUint i =
      .error ⟨.outOfRange, "unsigned integer overflow"⟩) ∧
    (0 ≤ i → IntValue.ConvertToTypeUint i = .uint i.toNat ∧
      (i.toNat : Int) = i) := by
  have hle : i ≤ (uint64Max : Int) := by
    simp only [int64Max, uint64Max] at hhi ⊢
    omega
  constructor
  · intro hneg
    simp [IntValue.ConvertToTypeUint, Number.LosslessConvertibleToUint,
      Number.FromInt64, hneg, not_le.mpr hneg]
  · intro hpos
    refine ⟨?_, Int.toNat_of_nonneg hpos⟩
    simp [IntValue.ConvertToTypeUint, Number.LosslessConvertibleToUint,
      Number.FromInt64, Number.AsUint, hpos, hle]

/-- Witness for C7 at `i = -1` (fails) and `i = 5` (converts). -/
theorem c7_int_to_uint_conversion_witness :
    IntValue.ConvertToTypeUint (-1) =
      .error ⟨.outOfRange, "unsigned integer overflow"⟩ ∧
    IntValue.ConvertToTypeUint 5 = .uint 5 :=
  ⟨(c7_int_to_uint_conversion (-1) (by decide) (by decide)).1 (by decide),
   ((c7_int_to_uint_conversion 5 (by decide) (by decide)).2 (by decide)).1⟩


/-- The function `incrementIterations` with a zero budget is a no-op. -/
theorem incrementIterations_zero (n : Nat) :
    incrementIterations 0 n = .ok n := rfl

/-- A successful increment under a positive budget increments the counter
and stays strictly below the budget. -/
theorem incrementIterations_ok (max iters iters' : Nat) (hmax : 0 < max)
    (h : incrementIterations max iters = .ok iters') :
    iters' = iters + 1 ∧ iters' < max := by
  unfold incrementIterations at h
  rw [if_neg (Nat.pos_iff_ne_zero.mp hmax)] at h
  by_cases hge : iters + 1 ≥ max
  · rw [if_pos hge] at h; exact absurd h (by simp)
  · rw [if_neg hge] at h
    injection h with h2
    omega

/-- On a successful pass under a positive budget, the final iteration
counter is below the budget (or the loop was empty and it is unchanged). -/
theorem runLoop_ok_iterations_le (max : Nat) (sc : Bool)
    (cond : Nat → Value) (step : Nat → Value → Value) (hmax : 0 < max) :
    ∀ (xs : List Value) (idx : Nat) (st st' : LoopState)
      (e : Option Value),
      runLoop max sc cond step xs idx st = .ok (st', e) →
      st'.iterations ≤ max ∨ st'.iterations = st.iterations := by
  intro xs
  induction xs with
  | nil =>
      intro idx st st' e h
      simp only [runLoop, Except.ok.injEq, Prod.mk.injEq] at h
      obtain ⟨h1, -⟩ := h
      subst h1
      right; rfl
  | cons x rest ih =>
      intro idx st st' e h
      simp only [runLoop, Bind.bind] at h
      cases hinc : incrementIterations max st.iterations with
      | error s => rw [hinc] at h; simp [Except.bind] at h
      | ok iters =>
          rw [hinc] at h
          simp only [Except.bind] at h
          obtain ⟨-, hlt⟩ := incrementIterations_ok max st.iterations iters
            hmax hinc
          cases hcv : cond idx <;> simp only [hcv] at h
          case bool b =>
            by_cases hb : (sc && !b) = true
            · rw [if_pos hb] at h
              simp only [Except.ok.injEq, Prod.mk.injEq] at h
              obtain ⟨h1, -⟩ := h
              subst h1
              left; exact le_of_lt hlt
            · rw [if_neg hb] at h
              rcases ih _ _ _ _ h with h2 | h2
              · left; exact h2
              · left; rw [h2]; exact le_of_lt hlt
          all_goals
            (simp only [Except.ok.injEq, Prod.mk.injEq] at h;
             obtain ⟨h1, -⟩ := h;
             subst h1;
             left; exact le_of_lt hlt)


/-- When every loop condition is `Bool(true)` and the remaining range is at
least as long as the remaining budget, the loop fails fatally with the
iteration-budget error. -/
theorem runLoop_budget_error (max : Nat) (sc : Bool) (cond : Nat → Value)
    (step : Nat → Value → Value) (hcond : ∀ k, cond k = .bool true) :
    ∀ (xs : List Value) (idx : Nat) (st : LoopState),
      st.iterations < max → max ≤ st.iterations + xs.length →
      runLoop max sc cond step xs idx st =
        .error ⟨.internal, "Iteration budget exceeded"⟩ := by
  intro xs
  induction xs with
  | nil =>
      intro idx st hlt hle
      simp only [List.length_nil, Nat.add_zero] at hle
      omega
  | cons x rest ih =>
      intro idx st hlt hle
      simp only [runLoop, Bind.bind]
      by_cases hge : st.iterations + 1 ≥ max
      · have hinc : incrementIterations max st.iterations =
            .error ⟨.internal, "Iteration budget exceeded"⟩ := by
          unfold incrementIterations
          rw [if_neg (by omega), if_pos hge]
        rw [hinc]
        rfl
      · have hinc : incrementIterations max st.iterations =
            .ok (st.iterations + 1) := by
          unfold incrementIterations
          rw [if_neg (by omega), if_neg hge]
        rw [hinc]
        simp only [Except.bind, hcond idx, Bool.not_true, Bool.and_false,
          Bool.false_eq_true, if_false]
        have hle' : max ≤ st.iterations + 1 + rest.length := by
          simp only [List.length_cons] at hle
          omega
        exact ih _ _ (show st.iterations + 1 < max by omega) hle'

/-- C1: with a positive iteration budget `N`, every successful
comprehension evaluation charged at most `N` iterations; a comprehension
whose range needs `N` iterations or more (in particular, more than `N`)
fails fatally: the evaluation's immediate result is the iteration-limit
error. -/
theorem c1_iteration_limit (N : Nat) (sc : Bool) (accuInit : Value)
    (cond : Nat → Value) (step : Nat → Value → Value)
    (resultFn : Value → Value) (hN : 0 < N) :
    (∀ (rangeVal : Value) (out : CompOutcome),
      evalComprehension N sc rangeVal accuInit cond step resultFn =
        .ok out → out.iterations ≤ N) ∧
    (∀ xs : List Value, N ≤ xs.length → (∀ k, cond k = .bool true) →
      evalComprehension N sc (.list xs) accuInit cond step resultFn =
        .error ⟨.internal, "Iteration budget exceeded"⟩) := by
  constructor
  · intro rangeVal out h
    cases rangeVal with
    | list xs =>
        simp only [evalComprehension] at h
        obtain ⟨⟨st, early⟩, hr, hk⟩ := except_bind_ok h
        have hiter : st.iterations ≤ N := by
          rcases runLoop_ok_iterations_le N sc cond step hN xs 0 _ st early
            hr with h2 | h2
          · exact h2
          · rw [h2]; exact Nat.zero_le N
        cases early with
        | some v =>
            simp only [Except.ok.injEq] at hk
            subst hk
            exact hiter
        | none =>
            simp only [Except.ok.injEq] at hk
            subst hk
            exact hiter
    | null => cases h; exact Nat.zero_le N
    | bool b => cases h; exact Nat.zero_le N
    | int i => cases h; exact Nat.zero_le N
    | uint u => cases h; exact Nat.zero_le N
    | double d => cases h; exact Nat.zero_le N
    | string s => cases h; exact Nat.zero_le N
    | bytes s => cases h; exact Nat.zero_le N
    | error e => cases h; exact Nat.zero_le N
    | unknown u => cases h; exact Nat.zero_le N
  · intro xs hlen hcond
    simp only [evalComprehension, Bind.bind]
    rw [runLoop_budget_error N sc cond step hcond xs 0
      ⟨0, accuInit, 0, 0⟩ hN (by simpa using hlen)]
    rfl

/-- Witness for C1: budget 2 over a two-element range with an always-true
condition fails with the iteration-budget error. -/
theorem c1_iteration_limit_witness :
    evalComprehension 2 true (.list [.int 1, .int 2]) (.bool false)
      (fun _ => .bool true) (fun _ a => a) id =
      .error ⟨.internal, "Iteration budget exceeded"⟩ :=
  (c1_iteration_limit 2 true (.bool false) (fun _ => .bool true)
    (fun _ a => a) id (by decide)).2 [.int 1, .int 2]
    (by simp) (fun k => rfl)


/-- With short-circuiting enabled and no budget, a condition that is true
for the first `k` iterations and false at iteration `k` stops the loop with
exactly `k` loop-step evaluations: the step never runs for the remaining
elements. -/
theorem runLoop_shortcircuit_steps (cond : Nat → Value)
    (step : Nat → Value → Value) (k : Nat)
    (hTrue : ∀ j, j < k → cond j = .bool true)
    (hFalse : cond k = .bool false) :
    ∀ (xs : List Value) (idx : Nat) (st : LoopState), idx ≤ k →
      k < idx + xs.length →
      ∃ st', runLoop 0 true cond step xs idx st = .ok (st', none) ∧
        st'.stepEvals = st.stepEvals + (k - idx) := by
  intro xs
  induction xs with
  | nil =>
      intro idx st hik hk
      simp only [List.length_nil, Nat.add_zero] at hk
      omega
  | cons x rest ih =>
      intro idx st hik hk
      simp only [runLoop, Bind.bind, incrementIterations_zero, Except.bind]
      rcases Nat.lt_or_ge idx k with hlt | hge
      · rw [hTrue idx hlt]
        simp only [Bool.not_true, Bool.and_false, Bool.false_eq_true,
          if_false]
        have hk' : k < idx + 1 + rest.length := by
          simp only [List.length_cons] at hk
          omega
        obtain ⟨st', h2, hs⟩ := ih (idx + 1)
          { st with
              condEvals := st.condEvals + 1,
              accu := step idx st.accu,
              stepEvals := st.stepEvals + 1 }
          (by omega) hk'
        refine ⟨st', h2, ?_⟩
        have hs' : st'.stepEvals = st.stepEvals + 1 + (k - (idx + 1)) := hs
        omega
      · have hik2 : idx = k := le_antisymm hik hge
        subst hik2
        rw [hFalse]
        simp only [Bool.not_false, Bool.and_true, if_pos rfl]
        refine ⟨_, rfl, ?_⟩
        simp

/-- With short-circuiting disabled and no budget, the loop step runs once
per range element even when the condition is false every iteration. -/
theorem runLoop_exhaustive_steps (cond : Nat → Value)
    (step : Nat → Value → Value)
    (hFalse : ∀ j, cond j = .bool false) :
    ∀ (xs : List Value) (idx : Nat) (st : LoopState),
      ∃ st', runLoop 0 false cond step xs idx st = .ok (st', none) ∧
        st'.stepEvals = st.stepEvals + xs.length := by
  intro xs
  induction xs with
  | nil => intro idx st; exact ⟨st, rfl, by simp⟩
  | cons x rest ih =>
      intro idx st
      simp only [runLoop, Bind.bind, incrementIterations_zero, Except.bind,
        hFalse idx, Bool.false_and, Bool.false_eq_true, if_false]
      obtain ⟨st', h2, hs⟩ := ih (idx + 1)
        { st with
            condEvals := st.condEvals + 1,
            accu := step idx st.accu,
            stepEvals := st.stepEvals + 1 }
      refine ⟨st', h2, ?_⟩
      have hs' : st'.stepEvals = st.stepEvals + 1 + rest.length := hs
      simp only [List.length_cons]
      omega

/-- C3: with short-circuiting enabled, a loop condition that becomes
`Bool(false)` at iteration `k` stops the loop there — the loop step is
evaluated exactly `k` times, never for the remaining elements; with
short-circuiting disabled, the loop step is evaluated once per range
element even though the condition is false on every iteration. -/
theorem c3_shortcircuit_vs_exhaustive (xs : List Value) (k : Nat)
    (accuInit : Value) (cond : Nat → Value) (step : Nat → Value → Value)
    (resultFn : Value → Value) :
    ((∀ j, j < k → cond j = .bool true) → cond k = .bool false →
      k < xs.length →
      ∃ out, evalComprehension 0 true (.list xs) accuInit cond step
        resultFn = .ok out ∧ out.stepEvals = k) ∧
    ((∀ j, cond j = .bool false) →
      ∃ out, evalComprehension 0 false (.list xs) accuInit cond step
        resultFn = .ok out ∧ out.stepEvals = xs.length) := by
  constructor
  · intro hTrue hFalse hk
    obtain ⟨st', h2, hs⟩ := runLoop_shortcircuit_steps cond step k hTrue
      hFalse xs 0 ⟨0, accuInit, 0, 0⟩ (Nat.zero_le k) (by omega)
    refine ⟨⟨resultFn st'.accu, st'.iterations, 1, st'.condEvals,
      st'.stepEvals⟩, ?_, by simpa using hs⟩
    simp only [evalComprehension, Bind.bind, Except.bind, h2]
  · intro hFalse
    obtain ⟨st', h2, hs⟩ := runLoop_exhaustive_steps cond step hFalse xs 0
      ⟨0, accuInit, 0, 0⟩
    refine ⟨⟨resultFn st'.accu, st'.iterations, 1, st'.condEvals,
      st'.stepEvals⟩, ?_, by simpa using hs⟩
    simp only [evalComprehension, Bind.bind, Except.bind, h2]

/-- Witness for C3: a three-element range with the condition true once
then false runs the step exactly once when short-circuiting, and a
two-element range with an always-false condition runs the step twice when
exhaustive. -/
theorem c3_shortcircuit_vs_exhaustive_witness :
    (∃ out, evalComprehension 0 true (.list [.int 1, .int 2, .int 3])
      .null (fun j => .bool (decide (j < 1))) (fun _ a => a) id =
      .ok out ∧ out.stepEvals = 1) ∧
    (∃ out, evalComprehension 0 false (.list [.int 1, .int 2]) .null
      (fun _ => .bool false) (fun _ a => a) id =
      .ok out ∧ out.stepEvals = 2) :=
  ⟨(c3_shortcircuit_vs_exhaustive [.int 1, .int 2, .int 3] 1 .null
      (fun j => .bool (decide (j < 1))) (fun _ a => a) id).1
      (fun j hj => by simp [hj]) (by simp) (by simp),
   (c3_shortcircuit_vs_exhaustive [.int 1, .int 2] 0 .null
      (fun _ => .bool false) (fun _ a => a) id).2 (fun _ => rfl)⟩



/-- An int64 converts losslessly to uint iff it is non-negative and within
the uint64 range. -/
theorem lossless_uint_fromInt_iff (i : Int) :
    Number.LosslessConvertibleToUint (Number.FromInt64 i) = true ↔
      (0 ≤ i ∧ i ≤ (uint64Max : Int)) := by
  simp [Number.LosslessConvertibleToUint, Number.FromInt64]

/-- A uint64 converts losslessly to int iff it is within the int64 range. -/
theorem lossless_int_fromUint_iff (u : Nat) :
    Number.LosslessConvertibleToInt (Number.FromUint64 u) = true ↔
      ((u : Int) ≤ int64Max) := by
  simp only [Number.LosslessConvertibleToInt, Number.FromUint64,
    decide_eq_true_eq, Rat.num_natCast, Rat.den_natCast, int64Min, int64Max]
  constructor
  · exact fun h => h.2.2
  · intro h
    refine ⟨trivial, ?_, h⟩
    exact le_trans (by norm_num) (Int.natCast_nonneg u)

/-- A double converts losslessly to int iff it is an integer within the
int64 range. -/
theorem lossless_int_fromDouble_iff (d : Rat) :
    Number.LosslessConvertibleToInt (Number.FromDouble d) = true ↔
      (d.den = 1 ∧ int64Min ≤ d.num ∧ d.num ≤ int64Max) := by
  simp [Number.LosslessConvertibleToInt, Number.FromDouble]

/-- A double converts losslessly to uint iff it is an integer within the
uint64 range. -/
theorem lossless_uint_fromDouble_iff (d : Rat) :
    Number.LosslessConvertibleToUint (Number.FromDouble d) = true ↔
      (d.den = 1 ∧ 0 ≤ d.num ∧ d.num ≤ (uint64Max : Int)) := by
  simp [Number.LosslessConvertibleToUint, Number.FromDouble]

/-- C5: with heterogeneous equality enabled, the `in` operator over maps
looks an int key up as int and, when the key converts losslessly to uint,
as uint (and a uint key as int when losslessly convertible); a double key
is looked up as int and as uint whenever losslessly convertible; when no
representation of the key is present the result is `Bool(false)`, not an
error. -/
theorem c5_heterogeneous_map_key_lookup (keys : List Value) (i : Int)
    (u : Nat) (d : Rat) :
    ((hasKey keys (.int i) = true →
      intKeyInSet true (mapHas keys) i = .ok (.bool true)) ∧
     (hasKey keys (.int i) = false → 0 ≤ i → i ≤ int64Max →
      hasKey keys (.uint i.toNat) = true →
      intKeyInSet true (mapHas keys) i = .ok (.bool true)) ∧
     (hasKey keys (.int i) = false → hasKey keys (.uint i.toNat) = false →
      intKeyInSet true (mapHas keys) i = .ok (.bool false))) ∧
    ((hasKey keys (.uint u) = true →
      uintKeyInSet true (mapHas keys) u = .ok (.bool true)) ∧
     (hasKey keys (.uint u) = false → (u : Int) ≤ int64Max →
      hasKey keys (.int (u : Int)) = true →
      uintKeyInSet true (mapHas keys) u = .ok (.bool true)) ∧
     (hasKey keys (.uint u) = false → hasKey keys (.int (u : Int)) = false →
      uintKeyInSet true (mapHas keys) u = .ok (.bool false))) ∧
    ((d.den = 1 → int64Min ≤ d.num → d.num ≤ int64Max →
      hasKey keys (.int d.num) = true →
      doubleKeyInSet (mapHas keys) d = .ok (.bool true)) ∧
     (d.den = 1 → 0 ≤ d.num → d.num ≤ (uint64Max : Int) →
      hasKey keys (.int d.num) = false →
      hasKey keys (.uint d.num.toNat) = true →
      doubleKeyInSet (mapHas keys) d = .ok (.bool true)) ∧
     (hasKey keys (.int d.num) = false →
      hasKey keys (.uint d.num.toNat) = false →
      doubleKeyInSet (mapHas keys) d = .ok (.bool false))) := by
  refine ⟨⟨?_, ?_, ?_⟩, ⟨?_, ?_, ?_⟩, ⟨?_, ?_, ?_⟩⟩
  · intro h1
    simp [intKeyInSet, mapHas, isOkAndTrue, Value.IsTrue, h1]
  · intro h1 h2 h3 h4
    have hb : Number.LosslessConvertibleToUint (Number.FromInt64 i) =
        true := by
      rw [lossless_uint_fromInt_iff]
      refine ⟨h2, ?_⟩
      simp only [int64Max] at h3
      simp only [uint64Max]
      omega
    have hAs : (Number.FromInt64 i).AsUint = i.toNat := by
      simp [Number.AsUint, Number.FromInt64]
    simp [intKeyInSet, mapHas, isOkAndTrue, Value.IsTrue, h1, hb, hAs, h4]
  · intro h1 h2
    by_cases hb : Number.LosslessConvertibleToUint (Number.FromInt64 i) =
        true
    · have hAs : (Number.FromInt64 i).AsUint = i.toNat := by
        simp [Number.AsUint, Number.FromInt64]
      simp [intKeyInSet, mapHas, isOkAndTrue, Value.IsTrue, h1, hb, hAs, h2]
    · simp [intKeyInSet, mapHas, isOkAndTrue, Value.IsTrue, h1, hb]
  · intro h1
    simp [uintKeyInSet, mapHas, isOkAndTrue, Value.IsTrue, h1]
  · intro h1 h2 h3
    have hb : Number.LosslessConvertibleToInt (Number.FromUint64 u) =
        true := (lossless_int_fromUint_iff u).mpr h2
    have hAs : (Number.FromUint64 u).AsInt = (u : Int) := by
      simp [Number.AsInt, Number.FromUint64]
    simp [uintKeyInSet, mapHas, isOkAndTrue, Value.IsTrue, h1, hb, hAs, h3]
  · intro h1 h2
    by_cases hb : Number.LosslessConvertibleToInt (Number.FromUint64 u) =
        true
    · have hAs : (Number.FromUint64 u).AsInt = (u : Int) := by
        simp [Number.AsInt, Number.FromUint64]
      simp [uintKeyInSet, mapHas, isOkAndTrue, Value.IsTrue, h1, hb, hAs,
        h2]
    · simp [uintKeyInSet, mapHas, isOkAndTrue, Value.IsTrue, h1, hb]
  · intro hden hlo hhi h4
    have hb : Number.LosslessConvertibleToInt d = true :=
      (lossless_int_fromDouble_iff d).mpr ⟨hden, hlo, hhi⟩
    simp [doubleKeyInSet, mapHas, isOkAndTrue, Value.IsTrue, hb,
      Number.AsInt, Number.FromDouble, h4]
  · intro hden h2 h3 hmiss h4
    have hbU : Number.LosslessConvertibleToUint d = true :=
      (lossless_uint_fromDouble_iff d).mpr ⟨hden, h2, h3⟩
    by_cases hbI : Number.LosslessConvertibleToInt d = true
    · simp [doubleKeyInSet, mapHas, isOkAndTrue, Value.IsTrue, hbI, hbU,
        Number.AsInt, Number.AsUint, Number.FromDouble, hmiss, h4]
    · simp [doubleKeyInSet, mapHas, isOkAndTrue, Value.IsTrue, hbI, hbU,
        Number.AsInt, Number.AsUint, Number.FromDouble, hmiss, h4]
  · intro h1 h2
    by_cases hbI : Number.LosslessConvertibleToInt d = true
    · by_cases hbU : Number.LosslessConvertibleToUint d = true
      · simp [doubleKeyInSet, mapHas, isOkAndTrue, Value.IsTrue, hbI, hbU,
          Number.AsInt, Number.AsUint, Number.FromDouble, h1, h2]
      · simp [doubleKeyInSet, mapHas, isOkAndTrue, Value.IsTrue, hbI, hbU,
          Number.AsInt, Number.AsUint, Number.FromDouble, h1, h2]
    · by_cases hbU : Number.LosslessConvertibleToUint d = true
      · simp [doubleKeyInSet, mapHas, isOkAndTrue, Value.IsTrue, hbI, hbU,
          Number.AsInt, Number.AsUint, Number.FromDouble, h1, h2]
      · simp [doubleKeyInSet, mapHas, isOkAndTrue, Value.IsTrue, hbI, hbU,
          Number.AsInt, Number.AsUint, Number.FromDouble, h1, h2]

/-- Witness for C5 over the key set `{1, 5u, "a"}`: the int key 1 is found
directly, the int key 5 through its uint representation, the double key
1.0 through its int representation, and the absent int key 7 yields
`Bool(false)`. -/
theorem c5_heterogeneous_map_key_lookup_witness :
    intKeyInSet true (mapHas [.int 1, .uint 5, .string [97]]) 1 =
      .ok (.bool true) ∧
    intKeyInSet true (mapHas [.int 1, .uint 5, .string [97]]) 5 =
      .ok (.bool true) ∧
    doubleKeyInSet (mapHas [.int 1, .uint 5, .string [97]]) 1 =
      .ok (.bool true) ∧
    intKeyInSet true (mapHas [.int 1, .uint 5, .string [97]]) 7 =
      .ok (.bool false) :=
  ⟨(c5_heterogeneous_map_key_lookup [.int 1, .uint 5, .string [97]] 1 0
      0).1.1 (by decide),
   (c5_heterogeneous_map_key_lookup [.int 1, .uint 5, .string [97]] 5 0
      0).1.2.1 (by decide) (by decide) (by decide) (by decide),
   (c5_heterogeneous_map_key_lookup [.int 1, .uint 5, .string [97]] 0 0
      1).2.2.1 (by decide) (by decide) (by decide) (by decide),
   (c5_heterogeneous_map_key_lookup [.int 1, .uint 5, .string [97]] 7 0
      0).1.2.2 (by decide) (by decide)⟩


/-- A byte at or above 192 is not a continuation byte. -/
theorem not_cont_of_ge (b : Nat) (h : 192 ≤ b) :
    isContinuationByte b = false := by
  simp [isContinuationByte]; omega

/-- A byte below 128 is not a continuation byte. -/
theorem not_cont_of_lt (b : Nat) (h : b < 128) :
    isContinuationByte b = false := by
  simp [isContinuationByte]
  omega

/-- A byte in `[128, 192)` is a continuation byte. -/
theorem cont_of (b : Nat) (h1 : 128 ≤ b) (h2 : b < 192) :
    isContinuationByte b = true := by
  simp [isContinuationByte]
  exact ⟨h1, h2⟩

/-- Each UTF-8-encoded scalar value contributes exactly one
non-continuation byte. -/
theorem utf8Encode_codepoint_size (c : Nat) :
    StringValue.size (utf8Encode c) = 1 := by
  unfold utf8Encode
  by_cases h1 : c < 128
  · rw [if_pos h1]
    simp [StringValue.size, not_cont_of_lt c h1]
  · rw [if_neg h1]
    by_cases h2 : c < 2048
    · rw [if_pos h2]
      have e1 : isContinuationByte (192 + c / 64) = false :=
        not_cont_of_ge _ (by omega)
      have e2 : isContinuationByte (128 + c % 64) = true :=
        cont_of _ (by omega) (by omega)
      simp [StringValue.size, e1, e2]
    · rw [if_neg h2]
      by_cases h3 : c < 65536
      · rw [if_pos h3]
        have e1 : isContinuationByte (224 + c / 4096) = false :=
          not_cont_of_ge _ (by omega)
        have e2 : isContinuationByte (128 + c / 64 % 64) = true :=
          cont_of _ (by omega) (by omega)
        have e3 : isContinuationByte (128 + c % 64) = true :=
          cont_of _ (by omega) (by omega)
        simp [StringValue.size, e1, e2, e3]
      · rw [if_neg h3]
        have e1 : isContinuationByte (240 + c / 262144) = false :=
          not_cont_of_ge _ (by omega)
        have e2 : isContinuationByte (128 + c / 4096 % 64) = true :=
          cont_of _ (by omega) (by omega)
        have e3 : isContinuationByte (128 + c / 64 % 64) = true :=
          cont_of _ (by omega) (by omega)
        have e4 : isContinuationByte (128 + c % 64) = true :=
          cont_of _ (by omega) (by omega)
        simp [StringValue.size, e1, e2, e3, e4]

/-- The string size of a UTF-8 encoding is the number of encoded scalar
values. -/
theorem utf8EncodeAll_size (cs : List Nat) :
    StringValue.size (utf8EncodeAll cs) = cs.length := by
  induction cs with
  | nil => rfl
  | cons c rest ih =>
      have hsplit : utf8EncodeAll (c :: rest) =
          utf8Encode c ++ utf8EncodeAll rest := rfl
      have h1 := utf8Encode_codepoint_size c
      rw [hsplit]
      simp only [StringValue.size, List.filter_append, List.length_append,
        List.length_cons] at h1 ih ⊢
      omega

/-- C6: `size()` of a String is its Unicode code-point count — for any
sequence of scalar values, the size of its UTF-8 encoding is the number of
scalar values, not the byte count — while `size()` of a Bytes value is its
octet count; in particular the three-byte sequence EF BF BD has String
size 1 and Bytes size 3. -/
theorem c6_string_size_codepoints_bytes_size_octets (cs bs : List Nat) :
    StringValue.size (utf8EncodeAll cs) = cs.length ∧
    BytesValue.size bs = bs.length ∧
    StringValue.size [239, 191, 189] = 1 ∧
    BytesValue.size [239, 191, 189] = 3 :=
  ⟨utf8EncodeAll_size cs, rfl, by decide, rfl⟩

/-- C9: for a field absent from the record's type, `GetField` (by name or
by number) returns a well-formed result holding a NotFound Error value
naming `no_such_field`, whereas `HasField` fails with a host-level
NotFound status and returns no value at all. -/
theorem c9_get_vs_has_missing_field (fields : List RecordField)
    (name : String) (number : Nat)
    (hn : fields.find? (fun f => f.name == name) = none)
    (hm : fields.find? (fun f => f.number == number) = none) :
    GetFieldByName fields name =
      .ok (.error ⟨.notFound, "no_such_field"⟩) ∧
    GetFieldByNumber fields number =
      .ok (.error ⟨.notFound, "no_such_field"⟩) ∧
    HasFieldByName fields name = .error ⟨.notFound, "no_such_field"⟩ ∧
    HasFieldByNumber fields number = .error ⟨.notFound, "no_such_field"⟩ := by
  refine ⟨?_, ?_, ?_, ?_⟩ <;>
    simp [GetFieldByName, GetFieldByNumber, HasFieldByName,
      HasFieldByNumber, hn, hm]

/-- Witness for C9 on a two-field record probed at an undeclared name and
field number 999. -/
theorem c9_get_vs_has_missing_field_witness :
    GetFieldByName [⟨"single_int32", 1, .int 1, true⟩,
        ⟨"single_int64", 2, .int 2, true⟩] "does_not_exist" =
      .ok (.error ⟨.notFound, "no_such_field"⟩) ∧
    GetFieldByNumber [⟨"single_int32", 1, .int 1, true⟩,
        ⟨"single_int64", 2, .int 2, true⟩] 999 =
      .ok (.error ⟨.notFound, "no_such_field"⟩) ∧
    HasFieldByName [⟨"single_int32", 1, .int 1, true⟩,
        ⟨"single_int64", 2, .int 2, true⟩] "does_not_exist" =
      .error ⟨.notFound, "no_such_field"⟩ ∧
    HasFieldByNumber [⟨"single_int32", 1, .int 1, true⟩,
        ⟨"single_int64", 2, .int 2, true⟩] 999 =
      .error ⟨.notFound, "no_such_field"⟩ :=
  c9_get_vs_has_missing_field _ "does_not_exist" 999 rfl rfl


/-- The search `find_last_of` misses exactly when the character is absent. -/
theorem findLastOf_none_iff (c : Char) (u : List Char) :
    findLastOf c u = none ↔ c ∉ u := by
  induction u with
  | nil => simp [findLastOf]
  | cons x xs ih =>
      simp only [findLastOf]
      cases h : findLastOf c xs with
      | some i =>
          have hmem : c ∈ xs := by
            by_contra hc
            rw [ih.mpr hc] at h
            exact absurd h (by simp)
          simp [List.mem_cons, hmem]
      | none =>
          have hnotmem : c ∉ xs := ih.mp h
          by_cases hx : x = c
          · simp [hx, List.mem_cons]
          · simp [hx, List.mem_cons, hnotmem, Ne.symm hx]

/-- The search `find_last_of` returns the index of the last occurrence: the character
is there and nowhere later. -/
theorem findLastOf_some_spec (c : Char) :
    ∀ (u : List Char) (pos : Nat), findLastOf c u = some pos →
      ∃ h : pos < u.length, u.get ⟨pos, h⟩ = c ∧
        ∀ (j : Nat) (hj : j < u.length), pos < j → u.get ⟨j, hj⟩ ≠ c := by
  intro u
  induction u with
  | nil => intro pos h; simp [findLastOf] at h
  | cons x xs ih =>
      intro pos h
      simp only [findLastOf] at h
      cases hx : findLastOf c xs with
      | some i =>
          rw [hx] at h
          simp only [Option.some.injEq] at h
          subst h
          obtain ⟨hi, hgi, hmax⟩ := ih i hx
          refine ⟨by simp only [List.length_cons]; omega, ?_, ?_⟩
          · simpa using hgi
          · intro j hj hlt
            cases j with
            | zero => omega
            | succ j2 =>
                have hj2 : j2 < xs.length := by
                  simp only [List.length_cons] at hj
                  omega
                have := hmax j2 hj2 (by omega)
                simpa using this
      | none =>
          rw [hx] at h
          by_cases hxc : x = c
          · rw [if_pos hxc] at h
            simp only [Option.some.injEq] at h
            subst h
            refine ⟨by simp, ?_, ?_⟩
            · simpa using hxc
            · intro j hj hlt
              cases j with
              | zero => omega
              | succ j2 =>
                  have hnm : c ∉ xs := (findLastOf_none_iff c xs).mp hx
                  have hj2 : j2 < xs.length := by
                    simp only [List.length_cons] at hj
                    omega
                  simp only [List.get_cons_succ]
                  intro heq
                  exact hnm (heq ▸ List.get_mem xs j2 hj2)
          · rw [if_neg hxc] at h
            exact absurd h (by simp)

/-- A nonempty list's `getLast?` is its element at index `length - 1`. -/
theorem getLast?_eq_get_last (u : List Char) (h : 0 < u.length) :
    u.getLast? = some (u.get ⟨u.length - 1, by omega⟩) := by
  rw [List.getLast?_eq_getElem?, List.getElem?_eq_getElem (by omega)]
  rfl

/-- C10 (amended): `ParseTypeUrl` succeeds iff the *last* `'/'` of the url
exists and is not its final character — equivalently, the url contains
`'/'` and does not end with `'/'` — and on success the written prefix is
everything up to and including the last `'/'` and the written type name
everything after it. -/
theorem c10_parse_type_url (u : List Char) :
    ((ParseTypeUrl u).isSome ↔ ('/' ∈ u ∧ u.getLast? ≠ some '/')) ∧
    (∀ p t, ParseTypeUrl u = some (p, t) →
      ∃ pos, ∃ h : pos < u.length, u.get ⟨pos, h⟩ = '/' ∧
        (∀ (j : Nat) (hj : j < u.length), pos < j → u.get ⟨j, hj⟩ ≠ '/') ∧
        pos + 1 < u.length ∧ p = u.take (pos + 1) ∧
        t = u.drop (pos + 1)) := by
  constructor
  · cases hf : findLastOf '/' u with
    | none =>
        have : '/' ∉ u := (findLastOf_none_iff '/' u).mp hf
        simp [ParseTypeUrl, hf, this]
    | some pos =>
        obtain ⟨hi, hgi, hmax⟩ := findLastOf_some_spec '/' u pos hf
        by_cases hend : pos + 1 = u.length
        · have hlast : u.getLast? = some '/' := by
            rw [getLast?_eq_get_last u (by omega)]
            have : u.length - 1 = pos := by omega
            simp only [this]
            exact congrArg some hgi
          simp [ParseTypeUrl, hf, hend, hlast]
        · have hmem : '/' ∈ u := hgi ▸ List.get_mem u pos hi
          have hlast : u.getLast? ≠ some '/' := by
            rw [getLast?_eq_get_last u (by omega)]
            intro hcontra
            simp only [Option.some.injEq] at hcontra
            exact hmax (u.length - 1) (by omega) (by omega) hcontra
          simp [ParseTypeUrl, hf, hend, hmem, hlast]
  · intro p t hpt
    cases hf : findLastOf '/' u with
    | none => simp [ParseTypeUrl, hf] at hpt
    | some pos =>
        obtain ⟨hi, hgi, hmax⟩ := findLastOf_some_spec '/' u pos hf
        by_cases hend : pos + 1 = u.length
        · simp [ParseTypeUrl, hf, hend] at hpt
        · simp only [ParseTypeUrl, hf, if_neg hend, Option.some.injEq,
            Prod.mk.injEq] at hpt
          exact ⟨pos, hi, hgi, hmax, by omega, hpt.1.symm, hpt.2.symm⟩

/-- Witness for C10 (amended) at the url `"ab/c"`. -/
theorem c10_parse_type_url_witness :
    ∃ pos, ∃ h : pos < (['a', 'b', '/', 'c'] : List Char).length,
      (['a', 'b', '/', 'c'] : List Char).get ⟨pos, h⟩ = '/' ∧
      (∀ (j : Nat) (hj : j < (['a', 'b', '/', 'c'] : List Char).length),
        pos < j → (['a', 'b', '/', 'c'] : List Char).get ⟨j, hj⟩ ≠ '/') ∧
      pos + 1 < (['a', 'b', '/', 'c'] : List Char).length ∧
      ['a', 'b', '/'] = (['a', 'b', '/', 'c'] : List Char).take (pos + 1) ∧
      ['c'] = (['a', 'b', '/', 'c'] : List Char).drop (pos + 1) :=
  (c10_parse_type_url ['a', 'b', '/', 'c']).2 ['a', 'b', '/'] ['c'] rfl

/-- Counterexample to C10 as stated: the url `"//"` contains a `'/'` that
is not its last character (the one at index 0), yet `ParseTypeUrl` fails —
the claim's condition must instead be about the *last* `'/'`. -/
theorem c10_parse_type_url_counterexample :
    (∃ i : Fin (['/', '/'] : List Char).length,
      (['/', '/'] : List Char).get i = '/' ∧
      (i : Nat) + 1 < (['/', '/'] : List Char).length) ∧
    ParseTypeUrl ['/', '/'] = none :=
  ⟨⟨⟨0, by decide⟩, by decide, by decide⟩, rfl⟩

end CelSpec
